import Mathlib

/-!
# Verification of the file-I/O layer of `vtkio.py`

This development gives a shallow embedding of the pure computational
content of `vtkio.py` (the only source file of the repository) and proves
the frozen claims about it.

Modelling conventions:
* A text file is a `List Line` where `Line := List Char` is one line of the
  file with its terminator stripped (Python's `int`, `float` and `str.split`
  all ignore the trailing newline that `readlines` keeps, so nothing is lost).
* Python exceptions (`IndexError`, `ValueError`, unpacking errors, ...) are
  modelled by `Option`: a raised exception is `none`.
* Python `float` values are modelled by exact rationals `ℚ`.  Real CPython
  floats are binary64, but every structural claim under verification is about
  which tokens of which lines are read and combined, which is independent of
  the rounding of the numeric domain.  CPython guarantees
  `float(str(x)) == x`; where a claim needs this round-trip it appears as an
  explicit hypothesis on the concrete values involved.
* Python list indexing `xs[i]` (including negative-index wraparound) is
  `pyGet`, and `range(a, b)` is `pyRange`, both over `ℤ` as in Python.
-/

abbrev Line : Type := List Char

abbrev Coord : Type := ℚ × ℚ × ℚ

abbrev Tet : Type := ℤ × ℤ × ℤ × ℤ

abbrev Tri : Type := ℤ × ℤ × ℤ

/-- Python `xs[i]` for `i : ℤ`: nonnegative indices from the front,
negative indices wrap from the back, out of range raises (`none`). -/
def pyGet {α : Type} (xs : List α) (i : ℤ) : Option α :=
  if 0 ≤ i then xs.get? i.toNat
  else if -i ≤ (xs.length : ℤ) then xs.get? (xs.length - (-i).toNat) else none

/-- Python `range(a, b)` as a list of integers. -/
def pyRange (a b : ℤ) : List ℤ :=
  (List.range (b - a).toNat).map (fun k : ℕ => a + (k : ℤ))

/-- Monadic map over `Option`, written out structurally so that it both
evaluates by kernel reduction and is easy to reason about.  Models a Python
loop whose body may raise: the first raise aborts the whole computation. -/
def optMapM {α β : Type} (f : α → Option β) : List α → Option (List β)
  | [] => some []
  | x :: xs => (f x).bind fun y => (optMapM f xs).bind fun ys => some (y :: ys)

/-- Python `str.split()` with no separator: split on runs of whitespace,
discarding empty tokens.  Structural accumulator recursion. -/
def pySplitAux : List Char → List Char → List (List Char)
  | [], acc => if acc.isEmpty then [] else [acc.reverse]
  | c :: cs, acc =>
    if c.isWhitespace then
      if acc.isEmpty then pySplitAux cs [] else acc.reverse :: pySplitAux cs []
    else pySplitAux cs (c :: acc)

def pySplitWS (s : Line) : List Line := pySplitAux s []

/-- Strip leading and trailing whitespace (Python `int`/`float` accept it). -/
def stripWS (cs : Line) : Line :=
  ((cs.dropWhile Char.isWhitespace).reverse.dropWhile Char.isWhitespace).reverse

def digitVal (c : Char) : ℕ := c.toNat - 48

def decDigitsVal (cs : Line) : ℕ := cs.foldl (fun a c => a * 10 + digitVal c) 0

/-- A nonempty all-digit string, as a natural number. -/
def parseDigits (cs : Line) : Option ℕ :=
  if cs.isEmpty then none
  else if cs.all Char.isDigit then some (decDigitsVal cs) else none

/-- An optionally signed digit string with no surrounding whitespace. -/
def parseSignedDigits (cs : Line) : Option ℤ :=
  match cs with
  | '-' :: rest => (parseDigits rest).map (fun n => -(n : ℤ))
  | '+' :: rest => (parseDigits rest).map (fun n => (n : ℤ))
  | _ => (parseDigits cs).map (fun n => (n : ℤ))

/-- Python `int(s)` on a base-10 literal (underscore separators and other
bases are not used by any input this code parses). -/
def pyInt (cs : Line) : Option ℤ := parseSignedDigits (stripWS cs)

def pow10Z (e : ℤ) : ℚ :=
  if 0 ≤ e then ((10 : ℚ) ^ e.toNat) else 1 / ((10 : ℚ) ^ (-e).toNat)

/-- Mantissa/exponent part of a Python float literal, sign already removed:
`digits [. digits] [(e|E) signed-digits]` with at least one mantissa digit. -/
def pyFloatCore (cs : Line) : Option ℚ :=
  let mant := cs.takeWhile (fun c => !(c == 'e' || c == 'E'))
  let rest := cs.dropWhile (fun c => !(c == 'e' || c == 'E'))
  let eo : Option ℤ :=
    match rest with
    | [] => some 0
    | _ :: es => parseSignedDigits es
  let ip := mant.takeWhile (fun c => !(c == '.'))
  let fpRest := mant.dropWhile (fun c => !(c == '.'))
  let fp : Line := match fpRest with | [] => [] | _ :: r => r
  match eo with
  | none => none
  | some e =>
    if ip.all Char.isDigit && fp.all Char.isDigit && !(ip.isEmpty && fp.isEmpty)
    then some (((decDigitsVal (ip ++ fp) : ℚ) / ((10 : ℚ) ^ fp.length)) * pow10Z e)
    else none

/-- Python `float(s)` on a finite decimal literal (`inf`/`nan` excluded:
they have no rational value and appear in no mesh file this code reads). -/
def pyFloat (cs : Line) : Option ℚ :=
  match stripWS cs with
  | '-' :: r => (pyFloatCore r).map (fun q => -q)
  | '+' :: r => (pyFloatCore r).map (fun q => q)
  | r => (pyFloatCore r).map (fun q => q)

/-- One coordinate line of the neutral format, `vtkio.py` lines 568-569:
`x,y,z = lines[i].split()` (exactly three tokens or a `ValueError`),
then `[float(x),float(y),float(z)]`. -/
def parseNeutralCoordLine (s : Line) : Option Coord :=
  match pySplitWS s with
  | [x, y, z] =>
      (pyFloat x).bind fun a =>
      (pyFloat y).bind fun b =>
      (pyFloat z).bind fun c => some (a, b, c)
  | _ => none

/-- One tetrahedron line of the neutral format, `vtkio.py` lines 574-576:
tokens 1..4 of the line, as `int`s, each decremented by 1. -/
def parseNeutralTetLine (s : Line) : Option Tet :=
  let t := pySplitWS s
  ((t.get? 1).bind pyInt).bind fun v0 =>
  ((t.get? 2).bind pyInt).bind fun v1 =>
  ((t.get? 3).bind pyInt).bind fun v2 =>
  ((t.get? 4).bind pyInt).bind fun v3 =>
  some (v0 - 1, v1 - 1, v2 - 1, v3 - 1)

/-- The parsing half of `convertNeutral2Xml` (`vtkio.py` lines 559-576),
translated bind-for-bind: `ncoords = int(lines[0])`; coordinate lines
`range(1, ncoords+1)`; `ntets = int(lines[ncoords+1])`; tetrahedron lines
`range(ncoords+2, ncoords+ntets+2)`.  List indexing uses Python semantics
(`pyGet`), so a negative parsed count behaves exactly as in the source. -/
def convertNeutral2Xml (lines : List Line) : Option (List Coord × List Tet) :=
  ((pyGet lines 0).bind pyInt).bind fun nc =>
  (optMapM (pyGet lines) (pyRange 1 (nc + 1))).bind fun coordLines =>
  (optMapM parseNeutralCoordLine coordLines).bind fun fdolf_coords =>
  ((pyGet lines (nc + 1)).bind pyInt).bind fun nt =>
  (optMapM (pyGet lines) (pyRange (nc + 2) (nc + nt + 2))).bind fun tetLines =>
  (optMapM parseNeutralTetLine tetLines).bind fun idolf_tets =>
  some (fdolf_coords, idolf_tets)

/-- Result of reading a neutral-format file according to the
specification: the declared vertex count, the coordinates, the declared
tetrahedron count, and the (0-indexed) connectivity. -/
structure NeutralData where
  nverts : ℕ
  coords : List Coord
  ntets : ℕ
  tets : List Tet
deriving DecidableEq

/-- A well-formed neutral-format file, written from the specification's
words: line 0 is the vertex count N (a nonnegative integer); the next N
lines are `x y z`; the line at position N+1 is the tetrahedron count T; the
next T lines are `id v0 v1 v2 v3` with tokens 1..4 taken as 1-indexed vertex
indices and converted to 0-indexed.  Returns the declared counts together
with the coordinate and connectivity lists the specification prescribes. -/
def neutralSpecParse (lines : List Line) : Option NeutralData :=
  (lines.get? 0).bind fun l0 =>
  (pyInt l0).bind fun nz =>
  if 0 ≤ nz then
    let N := nz.toNat
    if N + 2 ≤ lines.length then
      (optMapM parseNeutralCoordLine ((lines.drop 1).take N)).bind fun cs =>
      (lines.get? (N + 1)).bind fun l1 =>
      (pyInt l1).bind fun tz =>
      if 0 ≤ tz then
        let T := tz.toNat
        if N + 2 + T ≤ lines.length then
          (optMapM parseNeutralTetLine ((lines.drop (N + 2)).take T)).bind
            fun ts => some ⟨N, cs, T, ts⟩
        else none
      else none
    else none
  else none

/-! ## Decimal printing (Python `str` of numbers)

`str` of an `int` is its decimal digits with an optional leading minus.
`str` of a float prints the shortest decimal expansion; for the exact
decimal rationals produced by `pyFloat` this is the minimal-length decimal
with at least one digit on each side of the point (`str(2.0) == "2.0"`,
`str(1.5) == "1.5"`, `str(0.05) == "0.05"`).  Huge or non-decimal rationals
(which CPython would print in scientific notation, and which cannot arise
from a parsed float that the round-trip hypotheses of the claims cover) fall
back to an arbitrary string. -/

/-- Decimal digits of a natural number, fuel-structural so it kernel-reduces. -/
def natCharsAux : ℕ → ℕ → List Char → List Char
  | 0, _, acc => acc
  | fuel + 1, n, acc =>
    if n < 10 then Char.ofNat (48 + n) :: acc
    else natCharsAux fuel (n / 10) (Char.ofNat (48 + n % 10) :: acc)

def natChars (n : ℕ) : List Char := natCharsAux (n + 1) n []

/-- Python `str` of an `int`. -/
def intChars (i : ℤ) : Line :=
  if i < 0 then '-' :: natChars i.natAbs else natChars i.natAbs

/-- Smallest `k ≤ 64` with `d ∣ 10^k`, if any. -/
def decExp (d : ℕ) : Option ℕ :=
  (List.range 65).find? (fun k => 10 ^ k % d == 0)

/-- `m / 10^k` printed as a decimal numeral with `k` digits after the
point (`k = 0` prints as `m.0`, matching `str` of an integral float). -/
def printDecimal (m : ℤ) (k : ℕ) : List Char :=
  let sign : List Char := if m < 0 then ['-'] else []
  let ds := natChars m.natAbs
  if k == 0 then sign ++ ds ++ ['.', '0']
  else
    let ds := if ds.length ≤ k then List.replicate (k + 1 - ds.length) '0' ++ ds else ds
    sign ++ ds.take (ds.length - k) ++ ['.'] ++ ds.drop (ds.length - k)

/-- Python `str` of a float, on the exact decimal rationals of this model. -/
def pyStrFloat (q : ℚ) : Line :=
  match decExp q.den with
  | some k => printDecimal (q.num * (10 : ℤ) ^ k / (q.den : ℤ)) k
  | none => natChars 0

/-- Python's `in` on strings: `hasSub p l` is true when `p` occurs as a
contiguous substring of `l`. -/
def hasSub (p : Line) : Line → Bool
  | [] => p.isEmpty
  | c :: cs => p.isPrefixOf (c :: cs) || hasSub p cs

/-! ## `loadGmesh` (`vtkio.py` lines 202-265) -/

/-- Index of the first line satisfying `p` (the `for i,line in
enumerate(lines): ... break` scans at lines 216-220 and 228-232). -/
def firstIdxWhere (p : Line → Bool) : List Line → Option ℕ
  | [] => none
  | l :: ls => if p l then some 0 else (firstIdxWhere p ls).map (· + 1)

/-- One node line: `cn = lines[i].split()` then
`[float(cn[1]), float(cn[2]), float(cn[3])]` (lines 223-224). -/
def gmeshNodeLine (s : Line) : Option Coord :=
  let cn := pySplitWS s
  ((cn.get? 1).bind pyFloat).bind fun x =>
  ((cn.get? 2).bind pyFloat).bind fun y =>
  ((cn.get? 3).bind pyFloat).bind fun z => some (x, y, z)

/-- One element line: `ele = lines[i].split()` then
`[int(ele[-3]), int(ele[-2]), int(ele[-1])]` (lines 235-236),
with Python negative indexing. -/
def gmeshElemLine (s : Line) : Option Tri :=
  let ele := pySplitWS s
  ((pyGet ele (-3)).bind pyInt).bind fun a =>
  ((pyGet ele (-2)).bind pyInt).bind fun b =>
  ((pyGet ele (-1)).bind pyInt).bind fun c => some (a, b, c)

/-- The `$Nodes` scan of `loadGmesh` (lines 214-220): if some line contains
`$Nodes`, `index_nodes` is its index plus one and `nnodes` is
`int(lines[index_nodes])`; otherwise both stay `0`. -/
def gmeshNodesHeader (lines : List Line) : Option (ℤ × ℤ) :=
  match firstIdxWhere (fun l => hasSub "$Nodes".toList l) lines with
  | some i => ((pyGet lines ((i : ℤ) + 1)).bind pyInt).bind fun nn =>
      some ((i : ℤ) + 1, nn)
  | none => some (0, 0)

/-- The `$Elements` scan of `loadGmesh` (lines 226-232). -/
def gmeshElementsHeader (lines : List Line) : Option (ℤ × ℤ) :=
  match firstIdxWhere (fun l => hasSub "$Elements".toList l) lines with
  | some i => ((pyGet lines ((i : ℤ) + 1)).bind pyInt).bind fun ne =>
      some ((i : ℤ) + 1, ne)
  | none => some (0, 0)

/-- The parsing part of `loadGmesh` (lines 210-236 and the `e[k]-1`
triangle construction of lines 245-249): node coordinates from
`range(index_nodes+1, index_nodes+1+nnodes)`, raw elements from
`range(index_elements+1, index_elements+1+nelements)`, and each triangle is
the element's three ids decremented by one. -/
def loadGmeshParse (lines : List Line) : Option (List Coord × List Tri) :=
  (gmeshNodesHeader lines).bind fun st =>
  (optMapM (pyGet lines) (pyRange (st.1 + 1) (st.1 + 1 + st.2))).bind
    fun nodeLines =>
  (optMapM gmeshNodeLine nodeLines).bind fun node_coords =>
  (gmeshElementsHeader lines).bind fun st2 =>
  (optMapM (pyGet lines) (pyRange (st2.1 + 1) (st2.1 + 1 + st2.2))).bind
    fun elemLines =>
  (optMapM gmeshElemLine elemLines).bind fun elements =>
  some (node_coords, elements.map (fun e => (e.1 - 1, e.2.1 - 1, e.2.2 - 1)))

/-- One element line according to the specification's words: the trailing
three whitespace-separated tokens of the line, as 1-indexed ids. -/
def gmeshElemLineSpec (s : Line) : Option Tri :=
  let t := pySplitWS s
  if 3 ≤ t.length then
    match t.drop (t.length - 3) with
    | [a, b, c] =>
        (pyInt a).bind fun x =>
        (pyInt b).bind fun y =>
        (pyInt c).bind fun z => some (x, y, z)
    | _ => none
  else none

/-- A well-formed Gmsh file according to the specification: the first line
containing `$Nodes` is followed by a node count and that many `id x y z`
lines; the first line containing `$Elements` is followed by an element
count and that many lines whose trailing three tokens are 1-indexed vertex
ids, decremented to build triangles. -/
def gmeshSpecParse (lines : List Line) : Option (List Coord × List Tri) :=
  (firstIdxWhere (fun l => hasSub "$Nodes".toList l) lines).bind fun i =>
  ((lines.get? (i + 1)).bind pyInt).bind fun nz =>
  if 0 ≤ nz then
    let n := nz.toNat
    if i + 2 + n ≤ lines.length then
      (optMapM gmeshNodeLine ((lines.drop (i + 2)).take n)).bind fun coords =>
      (firstIdxWhere (fun l => hasSub "$Elements".toList l) lines).bind
        fun j =>
      ((lines.get? (j + 1)).bind pyInt).bind fun ez =>
      if 0 ≤ ez then
        let m := ez.toNat
        if j + 2 + m ≤ lines.length then
          (optMapM gmeshElemLineSpec ((lines.drop (j + 2)).take m)).bind
            fun els =>
          some (coords, els.map (fun e => (e.1 - 1, e.2.1 - 1, e.2.2 - 1)))
        else none
      else none
    else none
  else none

/-! ## Dolfin XML writing and re-reading

The `outfile` branch of `convertNeutral2Xml` (lines 578-600) writes one XML
element per `outF.write` call; `loadXml` (lines 100-115) re-reads the file
through `xml.etree.ElementTree`.  XML text serialisation and parsing belong
to the Python standard library, not to this repository, so the document is
modelled at the element-tree level: the writer produces the tree its text
output parses to, and the `loadXml` extraction loop walks that tree exactly
as the source walks the parsed `ElementTree`. -/

structure XmlElem where
  tag : Line
  attrs : List (Line × Line)
  children : List XmlElem

/-- `ElementTree.Element.get(key)`: first attribute with that name. -/
def getAttr : List (Line × Line) → Line → Option Line
  | [], _ => none
  | (k, v) :: rest, key => if k == key then some v else getAttr rest key

/-- `elem.findall(tag)`: the direct children with the given tag, in order. -/
def findall (e : XmlElem) (t : Line) : List XmlElem :=
  e.children.filter (fun c => c.tag == t)

/-- `for i in range(n): f i (xs[i])`, indexed iteration from `i`. -/
def enumMap {a b : Type} (f : Nat -> a -> b) : Nat -> List a -> List b
  | _, [] => []
  | i, x :: xs => f i x :: enumMap f (i + 1) xs

/-- The `<vertex index=.. x=.. y=.. z=../>` element written at lines 585-588. -/
def vertexElem (i : Nat) (co : Coord) : XmlElem :=
  ⟨"vertex".toList,
   [("index".toList, natChars i), ("x".toList, pyStrFloat co.1),
    ("y".toList, pyStrFloat co.2.1), ("z".toList, pyStrFloat co.2.2)], []⟩

/-- The `<tetrahedron index=.. v0=.. v1=.. v2=.. v3=../>` element written at
lines 592-595. -/
def tetElem (i : Nat) (t : Tet) : XmlElem :=
  ⟨"tetrahedron".toList,
   [("index".toList, natChars i), ("v0".toList, intChars t.1),
    ("v1".toList, intChars t.2.1), ("v2".toList, intChars t.2.2.1),
    ("v3".toList, intChars t.2.2.2)], []⟩

/-- The Dolfin XML document written by the `outfile` branch (lines 578-600):
a `dolfin` root holding one `mesh`, whose two children are the `vertices`
element (one `vertex` per coordinate, index attribute from `range(ncoords)`)
and the `cells` element (one `tetrahedron` per connectivity row).  In the
source `ncoords`/`ntets` are the lengths of the lists being written. -/
def writeDolfinXml (coords : List Coord) (tets : List Tet) : XmlElem :=
  ⟨"dolfin".toList,
   [("xmlns:dolfin".toList, "http://www.fenicsproject.org".toList)],
   [⟨"mesh".toList,
     [("celltype".toList, "tetrahedron".toList), ("dim".toList, "3".toList)],
     [⟨"vertices".toList, [("size".toList, natChars coords.length)],
       enumMap vertexElem 0 coords⟩,
      ⟨"cells".toList, [("size".toList, natChars tets.length)],
       enumMap tetElem 0 tets⟩]⟩]⟩

/-- `loadXml` lines 105-109: `float(e.get('x'))` etc. (`e.get` of a missing
attribute gives `None` and `float(None)` raises). -/
def parseVertexElem (e : XmlElem) : Option Coord :=
  ((getAttr e.attrs "x".toList).bind pyFloat).bind fun x =>
  ((getAttr e.attrs "y".toList).bind pyFloat).bind fun y =>
  ((getAttr e.attrs "z".toList).bind pyFloat).bind fun z => some (x, y, z)

/-- `loadXml` lines 110-115: `int(e.get('v0'))` etc. -/
def parseTetElem (e : XmlElem) : Option Tet :=
  ((getAttr e.attrs "v0".toList).bind pyInt).bind fun v0 =>
  ((getAttr e.attrs "v1".toList).bind pyInt).bind fun v1 =>
  ((getAttr e.attrs "v2".toList).bind pyInt).bind fun v2 =>
  ((getAttr e.attrs "v3".toList).bind pyInt).bind fun v3 =>
  some (v0, v1, v2, v3)

/-- The vertex/tetrahedron extraction loop of `loadXml` (lines 101-115):
`for mesh in tree.getroot(): for elem in mesh:` append all
`elem.findall('vertex')` coordinates and all `elem.findall('tetrahedron')`
rows, across every `mesh` and `elem`. -/
def loadXmlExtract (root : XmlElem) : Option (List Coord × List Tet) :=
  let elems := (root.children.map XmlElem.children).flatten
  (optMapM (fun el => optMapM parseVertexElem (findall el "vertex".toList))
      elems).bind fun css =>
  (optMapM (fun el => optMapM parseTetElem (findall el "tetrahedron".toList))
      elems).bind fun tss =>
  some (css.flatten, tss.flatten)

/-! ## `loadFile` dispatch (`vtkio.py` lines 6-31) -/

inductive Loader where
  | xml | neutral | gmesh | pcd | volume | image2d | poly
deriving DecidableEq

/-- The loader chosen by `loadFile`: each test is a Python substring test
on `fl = filename.lower()`, in source order. -/
def selectLoader (filename : Line) : Loader :=
  let fl := filename.map Char.toLower
  if (hasSub ".xml".toList fl || hasSub ".xml.gz".toList fl : Bool) then .xml
  else if hasSub ".neutral".toList fl then .neutral
  else if hasSub ".gmsh".toList fl then .gmesh
  else if hasSub ".pcd".toList fl then .pcd
  else if (hasSub ".tif".toList fl || hasSub ".slc".toList fl : Bool) then
    .volume
  else if (hasSub ".png".toList fl || hasSub ".jpg".toList fl
           || hasSub ".jpeg".toList fl : Bool) then .image2d
  else .poly

/-! ## Error handling on missing paths and unsupported formats

Each loader guards `os.path.exists` at its top; `loadDir` and `write`
instead terminate the process.  The guard decides everything the claims
ask about, so the happy path (which immediately delegates to the external
VTK toolkit) is abstracted to `ok`, and the `printc` side effect is
recorded as the list of printed messages. -/

inductive PyOutcome where
  | ok
  | pyNone
  | procExit (code : ℤ)
deriving DecidableEq

structure LoaderRun where
  printed : List Line
  outcome : PyOutcome
deriving DecidableEq

def cannotFindMsg (fn : String) (what : String) (filename : Line) : Line :=
  ("Error in " ++ fn ++ ": Cannot find" ++ what ++ " ").toList ++ filename

/-- `loadPoly` lines 46-48. -/
def loadPolyRun (fsExists : Bool) (filename : Line) : LoaderRun :=
  if !fsExists then ⟨[cannotFindMsg "loadPoly" "" filename], .pyNone⟩
  else ⟨[], .ok⟩

/-- `loadXml` lines 87-89. -/
def loadXmlRun (fsExists : Bool) (filename : Line) : LoaderRun :=
  if !fsExists then ⟨[cannotFindMsg "loadXml" "" filename], .pyNone⟩
  else ⟨[], .ok⟩

/-- `loadNeutral` lines 157-159. -/
def loadNeutralRun (fsExists : Bool) (filename : Line) : LoaderRun :=
  if !fsExists then ⟨[cannotFindMsg "loadNeutral" "" filename], .pyNone⟩
  else ⟨[], .ok⟩

/-- `loadGmesh` lines 206-208. -/
def loadGmeshRun (fsExists : Bool) (filename : Line) : LoaderRun :=
  if !fsExists then ⟨[cannotFindMsg "loadGmesh" "" filename], .pyNone⟩
  else ⟨[], .ok⟩

/-- `loadPCD` lines 270-272. -/
def loadPCDRun (fsExists : Bool) (filename : Line) : LoaderRun :=
  if !fsExists then ⟨[cannotFindMsg "loadPCD" " file" filename], .pyNone⟩
  else ⟨[], .ok⟩

/-- `loadVolume` lines 309-311. -/
def loadVolumeRun (fsExists : Bool) (filename : Line) : LoaderRun :=
  if !fsExists then ⟨[cannotFindMsg "loadVolume" " file" filename], .pyNone⟩
  else ⟨[], .ok⟩

/-- `loadDir` (lines 33-42): on a missing directory it prints and calls
`exit(0)`; otherwise it builds `acts = []`, calls `loadFile` on each entry
of the sorted listing *without appending the result*, and returns `acts`.
`sortedEntries` is `sorted(os.listdir(mydir))`; `loadedObjs` stands for the
values the `loadFile` calls produce, which the loop body discards. -/
def loadDirAcc (sortedEntries : List Line) : List Loader :=
  sortedEntries.foldl (fun acts _ifile => acts) []

def loadDirRun (dirExists : Bool) (mydir : Line) (sortedEntries : List Line) :
    LoaderRun × List Loader :=
  if !dirExists then
    (⟨[("Error in loadDir: Cannot find ").toList ++ mydir], .procExit 0⟩, [])
  else (⟨[], .ok⟩, loadDirAcc sortedEntries)

/-- The format dispatch of `write` (lines 396-412): substring tests on the
lowercased output name, else `exit(1)`. -/
def writeSupported (fr : Line) : Bool :=
  hasSub ".vtk".toList fr || hasSub ".ply".toList fr || hasSub ".obj".toList fr
    || hasSub ".stl".toList fr || hasSub ".byu".toList fr
    || hasSub ".g".toList fr || hasSub ".vtp".toList fr

def writeRun (fileoutput : Line) : LoaderRun :=
  if writeSupported (fileoutput.map Char.toLower) then ⟨[], .ok⟩
  else ⟨[("Unavailable format in file ").toList ++ fileoutput], .procExit 1⟩

/-! ## `Video.close` (`vtkio.py` lines 465-475)

`close` computes `_fps` only in the `if self.duration:` branch; the `else`
branch evaluates `int(_fps)` with `_fps` unassigned, raising
`UnboundLocalError` before `ffmpeg` is ever invoked.  `duration` is falsy
for `None` and for `0`. -/

inductive CloseOutcome where
  | encoded (fps : ℚ)
  | unboundLocalError
deriving DecidableEq

def videoClose (duration : Option ℚ) (nframes : ℕ) : CloseOutcome :=
  match duration with
  | some d => if d == 0 then .unboundLocalError
              else .encoded ((nframes : ℚ) / d)
  | none => .unboundLocalError

/-! ## `ProgressBar` (`vtkio.py` lines 480-556)

Only the fields the claims speak about are modelled (`_counts`, `percent`,
plus the inputs `start`/`stop`/`step`/`width` and the `bar` string built by
`_update`); the ETA clock and the terminal output of `print` are I/O.
`percent` is `int(round(...))` of a true division: CPython `round` is
round-half-to-even, modelled by `pyRound`. -/

/-- CPython `round` (banker's rounding) of an exact rational. -/
def pyRound (q : ℚ) : ℤ :=
  if q - Rat.floor q < 1 / 2 then Rat.floor q
  else if 1 / 2 < q - Rat.floor q then Rat.floor q + 1
  else if Rat.floor q % 2 == 0 then Rat.floor q else Rat.floor q + 1

structure PBar where
  start : ℤ
  stop : ℤ
  step : ℤ
  width : ℤ
  bar : Line
  percent : ℤ
  counts : ℤ
deriving DecidableEq

/-- The clamp at lines 544-545: `if counts < self.start: counts = self.start
elif counts > self.stop: counts = self.stop`. -/
def pbClamp (pb : PBar) (counts : ℤ) : ℤ :=
  if counts < pb.start then pb.start
  else if pb.stop < counts then pb.stop else counts

/-- `ProgressBar._update` (lines 543-556): clamp the argument into
`[start, stop]`, store it in `_counts`, recompute `percent` and `bar`. -/
def pbUpdate (pb : PBar) (counts : ℤ) : PBar :=
  let c := pbClamp pb counts
  let percent := pyRound ((((c - pb.start) * 100 : ℤ) : ℚ) /
    (((pb.stop - pb.start : ℤ) : ℚ)))
  let af := pb.width - 2
  let nh := pyRound (((percent : ℚ) / 100) * ((af : ℤ) : ℚ))
  let barCore : Line :=
    if nh == 0 then '[' :: '>' :: (List.replicate (af - 1).toNat ' ' ++ [']'])
    else if nh == af then '[' :: (List.replicate af.toNat '=' ++ [']'])
    else '[' :: (List.replicate (nh - 1).toNat '=' ++ ['>'] ++
      List.replicate (af - nh).toNat ' ' ++ [']'])
  { pb with
    counts := c
    percent := percent
    bar := barCore ++ [' '] ++ intChars percent ++ ['%'] }

/-- `ProgressBar.__init__` (lines 491-507): stores the inputs, sets
`percent = 0`, runs `self._update(0)`, and then (line 503) assigns
`self._counts = 0`, overwriting the clamped value `_update` stored. -/
def pbInit (start stop step : ℤ) : PBar :=
  let pb0 : PBar := ⟨start, stop, step, 25, [], 0, 0⟩
  let pb1 := pbUpdate pb0 0
  { pb1 with counts := 0 }

/-- `ProgressBar.print` (lines 509-511): a truthy `counts` argument (not
`None`, not `0`) is passed to `_update`, otherwise `_counts + step` is.
The rest of `print` only writes to the terminal. -/
def pbPrint (pb : PBar) (counts : Option ℤ) : PBar :=
  match counts with
  | some c => if c == 0 then pbUpdate pb (pb.counts + pb.step)
              else pbUpdate pb c
  | none => pbUpdate pb (pb.counts + pb.step)

/-- The invariant of claim C10. -/
def pbInv (pb : PBar) : Prop :=
  pb.start ≤ pb.counts ∧ pb.counts ≤ pb.stop ∧
    0 ≤ pb.percent ∧ pb.percent ≤ 100

/-- Range check used to state what a *valid* neutral file provides: every
one of tokens 1..4 of a tetrahedron line that parses as an int lies in
`[1, N]`. -/
def tetTokensInRange (N : ℤ) (s : Line) : Bool :=
  [1, 2, 3, 4].all (fun j =>
    match ((pySplitWS s).get? j).bind pyInt with
    | some v => decide (1 ≤ v ∧ v ≤ N)
    | none => true)

/-! ## Helper lemmas -/

theorem optMapM_eq_some_iff {a b : Type} (f : a -> Option b) :
    ∀ (l : List a) (r : List b),
      optMapM f l = some r ↔ List.Forall₂ (fun x y => f x = some y) l r := by
  intro l
  induction l with
  | nil =>
    intro r
    constructor
    · intro h
      cases r with
      | nil => exact List.Forall₂.nil
      | cons y ys => simp [optMapM] at h
    · intro h
      cases h
      rfl
  | cons x xs ih =>
    intro r
    constructor
    · intro h
      simp only [optMapM, Option.bind_eq_some] at h
      obtain ⟨y, hy, r2, hr2, hco⟩ := h
      obtain ⟨rfl⟩ := Option.some.inj hco
      exact List.Forall₂.cons hy ((ih r2).mp hr2)
    · intro h
      cases h with
      | cons hxy hrest =>
        simp only [optMapM, Option.bind_eq_some]
        exact ⟨_, hxy, _, (ih _).mpr hrest, rfl⟩

theorem optMapM_none_of_mem {a b : Type} {f : a -> Option b} {l : List a}
    {x : a} (hx : x ∈ l) (hf : f x = none) : optMapM f l = none := by
  induction l with
  | nil => cases hx
  | cons z zs ih =>
    rcases List.mem_cons.mp hx with rfl | hz
    · simp [optMapM, hf]
    · simp only [optMapM]
      cases h : f z with
      | none => rfl
      | some y => simp [ih hz]

theorem forall2_mem_left {a b : Type} {R : a -> b -> Prop} :
    ∀ {l : List a} {r : List b}, List.Forall₂ R l r →
      ∀ {x : a}, x ∈ l → ∃ y ∈ r, R x y := by
  intro l r h
  induction h with
  | nil => intro x hx; cases hx
  | cons hxy _ ih =>
    intro x hx
    rcases List.mem_cons.mp hx with rfl | hx2
    · exact ⟨_, List.mem_cons_self _ _, hxy⟩
    · obtain ⟨y, hy, hR⟩ := ih hx2
      exact ⟨y, List.mem_cons_of_mem _ hy, hR⟩

theorem forall2_mem_right {a b : Type} {R : a -> b -> Prop} :
    ∀ {l : List a} {r : List b}, List.Forall₂ R l r →
      ∀ {y : b}, y ∈ r → ∃ x ∈ l, R x y := by
  intro l r h
  induction h with
  | nil => intro y hy; cases hy
  | cons hxy _ ih =>
    intro y hy
    rcases List.mem_cons.mp hy with rfl | hy2
    · exact ⟨_, List.mem_cons_self _ _, hxy⟩
    · obtain ⟨x, hx, hR⟩ := ih hy2
      exact ⟨x, List.mem_cons_of_mem _ hx, hR⟩

theorem optMapM_congr {a b : Type} {f g : a -> Option b} :
    ∀ {l : List a}, (∀ x ∈ l, f x = g x) → optMapM f l = optMapM g l := by
  intro l
  induction l with
  | nil => intro _; rfl
  | cons x xs ih =>
    intro h
    simp only [optMapM, h x (List.mem_cons_self _ _),
      ih (fun z hz => h z (List.mem_cons_of_mem _ hz))]

theorem optMapM_map {a b c : Type} (f : b -> Option c) (g : a -> b)
    (l : List a) : optMapM f (l.map g) = optMapM (fun x => f (g x)) l := by
  induction l with
  | nil => rfl
  | cons x xs ih => simp only [List.map_cons, optMapM, ih]

theorem pyGet_natCast {a : Type} (xs : List a) (n : ℕ) :
    pyGet xs (n : ℤ) = xs.get? n := by
  simp [pyGet]

theorem pyGet_none_of_length_le {a : Type} (xs : List a) (n : ℕ)
    (h : xs.length ≤ n) : pyGet xs (n : ℤ) = none := by
  rw [pyGet_natCast]
  exact List.get?_eq_none.mpr h

theorem pyGet_neg {a : Type} (xs : List a) (k : ℕ) (hk : 0 < k)
    (h : k ≤ xs.length) : pyGet xs (-(k : ℤ)) = xs.get? (xs.length - k) := by
  have hneg : ¬ (0 ≤ -(k : ℤ)) := by omega
  have hle : ((k : ℤ)) ≤ (xs.length : ℤ) := by exact_mod_cast h
  simp [pyGet, hneg, hle]

theorem pyRange_natCast (a n : ℕ) :
    pyRange (a : ℤ) ((a : ℤ) + (n : ℤ)) =
      (List.range n).map (fun k : ℕ => ((a : ℤ) + (k : ℤ))) := by
  simp [pyRange]

theorem optMapM_getRange {a : Type} (xs : List a) :
    ∀ (n q : ℕ), q + n ≤ xs.length →
      optMapM (fun k => xs.get? (q + k)) (List.range n) =
        some ((xs.drop q).take n) := by
  intro n
  induction n with
  | zero => intro q _; simp [optMapM]
  | succ n ih =>
    intro q hq
    have hqlt : q < xs.length := by omega
    rw [List.range_succ_eq_map]
    simp only [optMapM]
    have h0 : xs.get? (q + 0) = some (xs.get ⟨q, hqlt⟩) := by
      rw [Nat.add_zero, List.get?_eq_getElem?]
      exact List.getElem?_eq_getElem hqlt
    rw [h0, optMapM_map (fun k => xs.get? (q + k)) Nat.succ (List.range n)]
    have hcg : optMapM (fun k => xs.get? (q + Nat.succ k)) (List.range n) =
        optMapM (fun k => xs.get? ((q + 1) + k)) (List.range n) := by
      apply optMapM_congr
      intro x _
      congr 1
      omega
    rw [hcg, ih (q + 1) (by omega)]
    rw [List.drop_eq_getElem_cons hqlt]
    rfl

theorem optMapM_pyGet_slice {a : Type} (xs : List a) (q n : ℕ)
    (h : q + n ≤ xs.length) :
    optMapM (pyGet xs) (pyRange (q : ℤ) ((q : ℤ) + (n : ℤ))) =
      some ((xs.drop q).take n) := by
  rw [pyRange_natCast,
    optMapM_map (pyGet xs) (fun k : ℕ => ((q : ℤ) + (k : ℤ))) (List.range n)]
  have hcg : optMapM (fun k : ℕ => pyGet xs ((q : ℤ) + (k : ℤ)))
      (List.range n) = optMapM (fun k => xs.get? (q + k)) (List.range n) := by
    apply optMapM_congr
    intro x _
    rw [show ((q : ℤ) + (x : ℤ)) = ((q + x : ℕ) : ℤ) by push_cast; ring]
    exact pyGet_natCast xs (q + x)
  rw [hcg]
  exact optMapM_getRange xs n q h

theorem mem_pyRange {i a b : ℤ} : i ∈ pyRange a b ↔ a ≤ i ∧ i < b := by
  simp only [pyRange, List.mem_map, List.mem_range]
  constructor
  · rintro ⟨k, hk, rfl⟩
    omega
  · intro h
    exact ⟨(i - a).toNat, by omega, by omega⟩

theorem parseNeutralCoordLine_none {s : Line}
    (h : (pySplitWS s).length ≠ 3) : parseNeutralCoordLine s = none := by
  unfold parseNeutralCoordLine
  cases hs : pySplitWS s with
  | nil => rfl
  | cons x t1 =>
    cases t1 with
    | nil => rfl
    | cons y t2 =>
      cases t2 with
      | nil => rfl
      | cons z t3 =>
        cases t3 with
        | nil => exact absurd (by simp [hs]) h
        | cons w t4 => rfl

theorem parseNeutralTetLine_some_length {s : Line} {v : Tet}
    (h : parseNeutralTetLine s = some v) : 5 ≤ (pySplitWS s).length := by
  simp only [parseNeutralTetLine, Option.bind_eq_some] at h
  obtain ⟨v0, ⟨s0, hg0, hp0⟩, v1, h1, v2, h2, v3, ⟨s3, hg3, hp3⟩, hv⟩ := h
  have h4 := (List.get?_eq_some.mp hg3).1
  omega

theorem parseNeutralTetLine_inRange {N : ℤ} {s : Line} {v : Tet}
    (h : parseNeutralTetLine s = some v) (hr : tetTokensInRange N s = true) :
    (0 ≤ v.1 ∧ v.1 < N) ∧ (0 ≤ v.2.1 ∧ v.2.1 < N) ∧
      (0 ≤ v.2.2.1 ∧ v.2.2.1 < N) ∧ (0 ≤ v.2.2.2 ∧ v.2.2.2 < N) := by
  simp only [parseNeutralTetLine, Option.bind_eq_some] at h
  obtain ⟨v0, h0, v1, h1, v2, h2, v3, h3, hv⟩ := h
  have h0' : ((pySplitWS s).get? 1).bind pyInt = some v0 := by
    rcases h0 with ⟨s0, hg, hp⟩; rw [hg]; exact hp
  have h1' : ((pySplitWS s).get? 2).bind pyInt = some v1 := by
    rcases h1 with ⟨s1, hg, hp⟩; rw [hg]; exact hp
  have h2' : ((pySplitWS s).get? 3).bind pyInt = some v2 := by
    rcases h2 with ⟨s2, hg, hp⟩; rw [hg]; exact hp
  have h3' : ((pySplitWS s).get? 4).bind pyInt = some v3 := by
    rcases h3 with ⟨s3, hg, hp⟩; rw [hg]; exact hp
  simp only [tetTokensInRange, List.all_cons, List.all_nil, Bool.and_eq_true,
    h0', h1', h2', h3', decide_eq_true_eq] at hr
  obtain ⟨hr0, hr1, hr2, hr3, _⟩ := hr
  obtain ⟨rfl⟩ := Option.some.inj hv
  refine ⟨⟨?_, ?_⟩, ⟨?_, ?_⟩, ⟨?_, ?_⟩, ⟨?_, ?_⟩⟩ <;> simp <;> omega

theorem rat_floor_le (q : ℚ) : ((Rat.floor q : ℤ) : ℚ) ≤ q :=
  Rat.le_floor.mp (le_refl _)

theorem pyRound_nonneg {q : ℚ} (h : 0 ≤ q) : 0 ≤ pyRound q := by
  have h0 : (0 : ℤ) ≤ Rat.floor q := Rat.le_floor.mpr (by exact_mod_cast h)
  unfold pyRound
  split_ifs <;> omega

theorem pyRound_le {q : ℚ} {z : ℤ} (h : q ≤ (z : ℚ)) : pyRound q ≤ z := by
  have hfl : Rat.floor q ≤ z := by
    have h2 : ((Rat.floor q : ℤ) : ℚ) ≤ (z : ℚ) := le_trans (rat_floor_le q) h
    exact_mod_cast h2
  unfold pyRound
  split_ifs with h1 h2 h3
  · exact hfl
  · have hhalf : (1 : ℚ)/2 ≤ q - ((Rat.floor q : ℤ) : ℚ) := le_of_lt h2
    have hlt : Rat.floor q < z := by
      rcases eq_or_lt_of_le hfl with heq | hlt
      · exfalso
        rw [heq] at hhalf
        linarith
      · exact hlt
    omega
  · exact hfl
  · have hhalf : (1 : ℚ)/2 ≤ q - ((Rat.floor q : ℤ) : ℚ) := le_of_not_lt h1
    have hlt : Rat.floor q < z := by
      rcases eq_or_lt_of_le hfl with heq | hlt
      · exfalso
        rw [heq] at hhalf
        linarith
      · exact hlt
    omega

theorem neutralSpecParse_inv {lines : List Line} {d : NeutralData}
    (h : neutralSpecParse lines = some d) :
    ∃ l0 l1,
      lines.get? 0 = some l0 ∧ pyInt l0 = some (d.nverts : ℤ) ∧
      d.nverts + 2 + d.ntets ≤ lines.length ∧
      optMapM parseNeutralCoordLine ((lines.drop 1).take d.nverts) =
        some d.coords ∧
      lines.get? (d.nverts + 1) = some l1 ∧
      pyInt l1 = some (d.ntets : ℤ) ∧
      optMapM parseNeutralTetLine ((lines.drop (d.nverts + 2)).take d.ntets) =
        some d.tets := by
  simp only [neutralSpecParse, Option.bind_eq_some] at h
  obtain ⟨l0, hl0, nz, hnz, h⟩ := h
  split at h
  · split at h
    · simp only [Option.bind_eq_some] at h
      obtain ⟨cs, hcs, l1, hl1, tz, htz, h⟩ := h
      split at h
      · split at h
        · simp only [Option.bind_eq_some] at h
          obtain ⟨ts, hts, hd⟩ := h
          obtain ⟨rfl⟩ := Option.some.inj hd
          dsimp only
          refine ⟨l0, l1, hl0, ?_, by omega, hcs, hl1, ?_, hts⟩
          · rw [hnz]
            congr 1
            omega
          · rw [htz]
            congr 1
            omega
        · exact absurd h (by simp)
      · exact absurd h (by simp)
    · exact absurd h (by simp)
  · exact absurd h (by simp)

theorem neutralSpec_imp_impl {lines : List Line} {d : NeutralData}
    (h : neutralSpecParse lines = some d) :
    convertNeutral2Xml lines = some (d.coords, d.tets) := by
  obtain ⟨l0, l1, hl0, hN, hlen, hcs, hl1, hT, hts⟩ := neutralSpecParse_inv h
  have h0 : pyGet lines 0 = lines.get? 0 := rfl
  have hcoordRange : pyRange 1 ((d.nverts : ℤ) + 1) =
      pyRange ((1 : ℕ) : ℤ) (((1 : ℕ) : ℤ) + ((d.nverts : ℕ) : ℤ)) := by
    congr 1 <;> omega
  have hcoordLines : optMapM (pyGet lines) (pyRange 1 ((d.nverts : ℤ) + 1)) =
      some ((lines.drop 1).take d.nverts) := by
    rw [hcoordRange]
    exact optMapM_pyGet_slice lines 1 d.nverts (by omega)
  have hcnt2 : pyGet lines ((d.nverts : ℤ) + 1) = lines.get? (d.nverts + 1) := by
    rw [show ((d.nverts : ℤ) + 1) = ((d.nverts + 1 : ℕ) : ℤ) by push_cast; ring]
    exact pyGet_natCast lines (d.nverts + 1)
  have htetRange : pyRange ((d.nverts : ℤ) + 2)
      ((d.nverts : ℤ) + (d.ntets : ℤ) + 2) =
      pyRange ((d.nverts + 2 : ℕ) : ℤ)
        (((d.nverts + 2 : ℕ) : ℤ) + ((d.ntets : ℕ) : ℤ)) := by
    congr 1 <;> omega
  have htetLines : optMapM (pyGet lines)
      (pyRange ((d.nverts : ℤ) + 2) ((d.nverts : ℤ) + (d.ntets : ℤ) + 2)) =
      some ((lines.drop (d.nverts + 2)).take d.ntets) := by
    rw [htetRange]
    exact optMapM_pyGet_slice lines (d.nverts + 2) d.ntets (by omega)
  unfold convertNeutral2Xml
  rw [h0, hl0]
  simp only [Option.some_bind]
  rw [hN]
  simp only [Option.some_bind]
  rw [hcoordLines]
  simp only [Option.some_bind]
  rw [hcs]
  simp only [Option.some_bind]
  rw [hcnt2, hl1]
  simp only [Option.some_bind]
  rw [hT]
  simp only [Option.some_bind]
  rw [htetLines]
  simp only [Option.some_bind]
  rw [hts]
  simp only [Option.some_bind]

/-! ## Claims C1, C2, C8: the neutral-format parser -/

/-- C1: for every well-formed neutral-format input file (`neutralSpecParse`
succeeds, yielding the vertex count N from line 0, the N coordinate lines
of three floats each, the tetrahedron count T from line N+1, and the T
tetrahedron lines whose tokens 1..4 are converted from 1- to 0-indexed),
`convertNeutral2Xml` returns exactly that coordinate list and that
connectivity list. -/
theorem claim_C1_convertNeutral2Xml_follows_spec {lines : List Line}
    {d : NeutralData} (h : neutralSpecParse lines = some d) :
    convertNeutral2Xml lines = some (d.coords, d.tets) :=
  neutralSpec_imp_impl h

theorem claim_C1_witness :
    neutralSpecParse ["2".toList, "0 0 0".toList, "1.5 2 3".toList,
        "1".toList, "7 1 2 2 1".toList] =
      some ⟨2, [(0, 0, 0), (3/2, 2, 3)], 1, [(0, 1, 1, 0)]⟩ ∧
    convertNeutral2Xml ["2".toList, "0 0 0".toList, "1.5 2 3".toList,
        "1".toList, "7 1 2 2 1".toList] =
      some ([(0, 0, 0), (3/2, 2, 3)], [(0, 1, 1, 0)]) :=
  ⟨by with_unfolding_all decide,
   @claim_C1_convertNeutral2Xml_follows_spec
     ["2".toList, "0 0 0".toList, "1.5 2 3".toList, "1".toList,
       "7 1 2 2 1".toList]
     ⟨2, [(0, 0, 0), (3/2, 2, 3)], 1, [(0, 1, 1, 0)]⟩
     (by with_unfolding_all decide)⟩

/-- C2: for a valid neutral-format input (well-formed, and every tetrahedron
line's index tokens lie in `[1, N]` — index references into the vertex
list), the parsed coordinate list has length equal to the declared vertex
count `N`, and all four 0-indexed indices of every returned tetrahedron lie
in `[0, N)`. -/
theorem claim_C2_neutral_invariants {lines : List Line} {d : NeutralData}
    (h : neutralSpecParse lines = some d)
    (hrg : ((lines.drop (d.nverts + 2)).take d.ntets).all
        (tetTokensInRange (d.nverts : ℤ)) = true) :
    convertNeutral2Xml lines = some (d.coords, d.tets) ∧
    d.coords.length = d.nverts ∧
    ∀ t ∈ d.tets,
      (0 ≤ t.1 ∧ t.1 < (d.nverts : ℤ)) ∧
      (0 ≤ t.2.1 ∧ t.2.1 < (d.nverts : ℤ)) ∧
      (0 ≤ t.2.2.1 ∧ t.2.2.1 < (d.nverts : ℤ)) ∧
      (0 ≤ t.2.2.2 ∧ t.2.2.2 < (d.nverts : ℤ)) := by
  obtain ⟨l0, l1, hl0, hN, hlen, hcs, hl1, hT, hts⟩ := neutralSpecParse_inv h
  refine ⟨neutralSpec_imp_impl h, ?_, ?_⟩
  · have hf := (optMapM_eq_some_iff _ _ _).mp hcs
    have hlq := List.Forall₂.length_eq hf
    rw [← hlq]
    rw [List.length_take, List.length_drop]
    omega
  · intro t ht
    have hf := (optMapM_eq_some_iff _ _ _).mp hts
    obtain ⟨sline, hsm, hsp⟩ := forall2_mem_right hf ht
    have hr : tetTokensInRange (d.nverts : ℤ) sline = true :=
      List.all_eq_true.mp hrg sline hsm
    exact parseNeutralTetLine_inRange hsp hr

theorem claim_C2_witness :
    ((["2".toList, "0 0 0".toList, "1.5 2 3".toList, "1".toList,
        "7 1 2 2 1".toList].drop (2 + 2)).take 1).all
      (tetTokensInRange (2 : ℤ)) = true ∧
    [(0, 0, 0), ((3 : ℚ)/2, (2 : ℚ), (3 : ℚ))].length = 2 ∧
    ((0 : ℤ), (1 : ℤ), (1 : ℤ), (0 : ℤ)).1 < (2 : ℤ) := by
  have hmain := @claim_C2_neutral_invariants
    ["2".toList, "0 0 0".toList, "1.5 2 3".toList, "1".toList,
      "7 1 2 2 1".toList]
    ⟨2, [(0, 0, 0), (3/2, 2, 3)], 1, [(0, 1, 1, 0)]⟩
    (by with_unfolding_all decide) (by with_unfolding_all decide)
  exact ⟨by with_unfolding_all decide, hmain.2.1,
    ((hmain.2.2 (0, 1, 1, 0) (by simp)).1).2⟩

/-- C8: `convertNeutral2Xml` has no malformed-line recovery.  With the
vertex count parsed as N from line 0: if some coordinate line among
1..N exists but does not split into exactly three tokens, the parse raises
(returns `none`); if the file is shorter than N+2 lines, it raises; and
with the tetrahedron count parsed as T from line N+1, if some tetrahedron
line among N+2..N+T+1 exists with fewer than five tokens, or the file is
shorter than N+2+T lines, it raises. -/
theorem claim_C8_no_malformed_recovery (lines : List Line) (N : ℕ)
    (hN : (pyGet lines 0).bind pyInt = some (N : ℤ)) :
    ((∃ i : ℕ, 1 ≤ i ∧ i ≤ N ∧
        ∃ s, pyGet lines (i : ℤ) = some s ∧ (pySplitWS s).length ≠ 3) →
      convertNeutral2Xml lines = none) ∧
    (lines.length < N + 2 → convertNeutral2Xml lines = none) ∧
    (∀ T : ℕ, (pyGet lines ((N : ℤ) + 1)).bind pyInt = some (T : ℤ) →
      ((∃ i : ℕ, N + 2 ≤ i ∧ i < N + 2 + T ∧
          ∃ s, pyGet lines (i : ℤ) = some s ∧ (pySplitWS s).length < 5) →
        convertNeutral2Xml lines = none) ∧
      (lines.length < N + 2 + T → convertNeutral2Xml lines = none)) := by
  have base : convertNeutral2Xml lines =
      (optMapM (pyGet lines) (pyRange 1 ((N : ℤ) + 1))).bind (fun coordLines =>
        (optMapM parseNeutralCoordLine coordLines).bind (fun fdolf_coords =>
          ((pyGet lines ((N : ℤ) + 1)).bind pyInt).bind (fun nt =>
            (optMapM (pyGet lines)
                (pyRange ((N : ℤ) + 2) ((N : ℤ) + nt + 2))).bind
              (fun tetLines =>
                (optMapM parseNeutralTetLine tetLines).bind (fun idolf_tets =>
                  some (fdolf_coords, idolf_tets)))))) := by
    unfold convertNeutral2Xml
    rw [hN]
    simp only [Option.some_bind]
  refine ⟨?_, ?_, ?_⟩
  · rintro ⟨i, hi1, hiN, sline, hsl, hlen3⟩
    rw [base]
    cases hcl : optMapM (pyGet lines) (pyRange 1 ((N : ℤ) + 1)) with
    | none => rfl
    | some ls =>
      have hmem : (i : ℤ) ∈ pyRange 1 ((N : ℤ) + 1) :=
        mem_pyRange.mpr ⟨by omega, by omega⟩
      obtain ⟨y, hy, hgy⟩ :=
        forall2_mem_left ((optMapM_eq_some_iff _ _ _).mp hcl) hmem
      rw [hsl] at hgy
      obtain ⟨rfl⟩ := Option.some.inj hgy
      have hnone := optMapM_none_of_mem hy (parseNeutralCoordLine_none hlen3)
      simp only [Option.some_bind, hnone, Option.none_bind]
  · intro hshort
    rw [base]
    cases hcl : optMapM (pyGet lines) (pyRange 1 ((N : ℤ) + 1)) with
    | none => rfl
    | some ls =>
      cases hcs : optMapM parseNeutralCoordLine ls with
      | none => simp only [Option.some_bind, hcs, Option.none_bind]
      | some cs =>
        have hg : pyGet lines ((N : ℤ) + 1) = none := by
          rw [show ((N : ℤ) + 1) = ((N + 1 : ℕ) : ℤ) by push_cast; ring]
          exact pyGet_none_of_length_le lines (N + 1) (by omega)
        simp only [Option.some_bind, hcs, hg, Option.none_bind]
  · intro T hT
    have hcnt : N + 1 < lines.length := by
      obtain ⟨l1, hl1, _⟩ := Option.bind_eq_some.mp hT
      rw [show ((N : ℤ) + 1) = ((N + 1 : ℕ) : ℤ) by push_cast; ring,
        pyGet_natCast] at hl1
      exact (List.get?_eq_some.mp hl1).1
    refine ⟨?_, ?_⟩
    · rintro ⟨i, hi1, hiT, sline, hsl, hlen5⟩
      rw [base]
      cases hcl : optMapM (pyGet lines) (pyRange 1 ((N : ℤ) + 1)) with
      | none => rfl
      | some ls =>
        cases hcs : optMapM parseNeutralCoordLine ls with
        | none => simp only [Option.some_bind, hcs, Option.none_bind]
        | some cs =>
          have hpl : parseNeutralTetLine sline = none := by
            cases hp : parseNeutralTetLine sline with
            | none => rfl
            | some v =>
              exact absurd (parseNeutralTetLine_some_length hp) (by omega)
          cases htl : optMapM (pyGet lines)
              (pyRange ((N : ℤ) + 2) ((N : ℤ) + (T : ℤ) + 2)) with
          | none =>
            simp only [Option.some_bind, hcs, hT, htl, Option.none_bind]
          | some tls =>
            have hmem : (i : ℤ) ∈ pyRange ((N : ℤ) + 2) ((N : ℤ) + (T : ℤ) + 2) :=
              mem_pyRange.mpr ⟨by omega, by omega⟩
            obtain ⟨y, hy, hgy⟩ :=
              forall2_mem_left ((optMapM_eq_some_iff _ _ _).mp htl) hmem
            rw [hsl] at hgy
            obtain ⟨rfl⟩ := Option.some.inj hgy
            have hnone := optMapM_none_of_mem hy hpl
            simp only [Option.some_bind, hcs, hT, htl, hnone, Option.none_bind]
    · intro hshort
      rw [base]
      cases hcl : optMapM (pyGet lines) (pyRange 1 ((N : ℤ) + 1)) with
      | none => rfl
      | some ls =>
        cases hcs : optMapM parseNeutralCoordLine ls with
        | none => simp only [Option.some_bind, hcs, Option.none_bind]
        | some cs =>
          have hmem : ((lines.length : ℕ) : ℤ) ∈
              pyRange ((N : ℤ) + 2) ((N : ℤ) + (T : ℤ) + 2) :=
            mem_pyRange.mpr ⟨by omega, by omega⟩
          have hg : pyGet lines ((lines.length : ℕ) : ℤ) = none :=
            pyGet_none_of_length_le lines lines.length (le_refl _)
          have htl := optMapM_none_of_mem hmem hg
          simp only [Option.some_bind, hcs, hT, htl, Option.none_bind]

theorem claim_C8_witness :
    convertNeutral2Xml ["2".toList, "0 0".toList, "0 0 0".toList,
      "1".toList, "1 1 2 2 1".toList] = none :=
  (claim_C8_no_malformed_recovery
      ["2".toList, "0 0".toList, "0 0 0".toList, "1".toList,
        "1 1 2 2 1".toList] 2 (by decide)).1
    ⟨1, by omega, by omega, "0 0".toList, by decide, by decide⟩

/-! ## Claim C4: the Gmsh parser -/

theorem getq_drop_three {t : List Line} {a b c : Line}
    (h3 : 3 ≤ t.length) (hd : t.drop (t.length - 3) = [a, b, c]) :
    t.get? (t.length - 3) = some a ∧ t.get? (t.length - 2) = some b ∧
      t.get? (t.length - 1) = some c := by
  have key : ∀ off : ℕ, t.get? (t.length - 3 + off) = [a, b, c].get? off := by
    intro off
    rw [← hd, List.get?_drop]
  refine ⟨?_, ?_, ?_⟩
  · have h0 := key 0
    rw [Nat.add_zero] at h0
    rw [h0]
    rfl
  · have h1 := key 1
    rw [show t.length - 3 + 1 = t.length - 2 by omega] at h1
    rw [h1]
    rfl
  · have h2 := key 2
    rw [show t.length - 3 + 2 = t.length - 1 by omega] at h2
    rw [h2]
    rfl

theorem gmeshElemLineSpec_imp {s : Line} {v : Tri}
    (h : gmeshElemLineSpec s = some v) : gmeshElemLine s = some v := by
  unfold gmeshElemLineSpec at h
  by_cases h3 : 3 ≤ (pySplitWS s).length
  case neg =>
    rw [if_neg h3] at h
    cases h
  rw [if_pos h3] at h
  cases hd : (pySplitWS s).drop ((pySplitWS s).length - 3) with
  | nil => rw [hd] at h; cases h
  | cons a t1 =>
    cases t1 with
    | nil => rw [hd] at h; cases h
    | cons b t2 =>
      cases t2 with
      | nil => rw [hd] at h; cases h
      | cons c t3 =>
        cases t3 with
        | cons d t4 => rw [hd] at h; cases h
        | nil =>
          rw [hd] at h
          obtain ⟨hga, hgb, hgc⟩ := getq_drop_three h3 hd
          have hm3 : pyGet (pySplitWS s) (-(3 : ℤ)) =
              (pySplitWS s).get? ((pySplitWS s).length - 3) :=
            pyGet_neg _ 3 (by omega) h3
          have hm2 : pyGet (pySplitWS s) (-(2 : ℤ)) =
              (pySplitWS s).get? ((pySplitWS s).length - 2) :=
            pyGet_neg _ 2 (by omega) (by omega)
          have hm1 : pyGet (pySplitWS s) (-(1 : ℤ)) =
              (pySplitWS s).get? ((pySplitWS s).length - 1) :=
            pyGet_neg _ 1 (by omega) (by omega)
          simp only [gmeshElemLine]
          rw [hm3, hga, hm2, hgb, hm1, hgc]
          simp only [Option.some_bind]
          exact h

/-- C4: for every well-formed Gmsh input file (`gmeshSpecParse` succeeds:
the first `$Nodes` line is followed by a node count and that many lines
whose tokens 1, 2, 3 are the coordinates; the first `$Elements` line is
followed by an element count and that many lines whose trailing three
tokens are 1-indexed vertex ids, decremented when building triangles),
the parsing part of `loadGmesh` produces exactly those nodes and
triangles. -/
theorem claim_C4_loadGmesh_follows_spec {lines : List Line}
    {r : List Coord × List Tri} (h : gmeshSpecParse lines = some r) :
    loadGmeshParse lines = some r := by
  simp only [gmeshSpecParse, Option.bind_eq_some] at h
  obtain ⟨i, hi, nz, ⟨li, hli, hpi⟩, h⟩ := h
  split at h
  case isFalse => cases h
  case isTrue hz =>
  split at h
  case isFalse => cases h
  case isTrue hlen =>
  simp only [Option.bind_eq_some] at h
  obtain ⟨coords, hcoords, j, hj, ez, ⟨lj, hlj, hpj⟩, h⟩ := h
  split at h
  case isFalse => cases h
  case isTrue hez =>
  split at h
  case isFalse => cases h
  case isTrue hlen2 =>
  simp only [Option.bind_eq_some] at h
  obtain ⟨els, hels, hr⟩ := h
  have hdr : gmeshNodesHeader lines = some ((i : ℤ) + 1, nz) := by
    simp only [gmeshNodesHeader, hi]
    rw [show ((i : ℤ) + 1) = ((i + 1 : ℕ) : ℤ) by push_cast; ring,
      pyGet_natCast, hli]
    simp only [Option.some_bind, hpi]
  have hnodeRange : pyRange ((i : ℤ) + 1 + 1) ((i : ℤ) + 1 + 1 + nz) =
      pyRange ((i + 2 : ℕ) : ℤ) (((i + 2 : ℕ) : ℤ) + ((nz.toNat : ℕ) : ℤ)) := by
    congr 1 <;> omega
  have hnodeLines : optMapM (pyGet lines)
      (pyRange ((i : ℤ) + 1 + 1) ((i : ℤ) + 1 + 1 + nz)) =
      some ((lines.drop (i + 2)).take nz.toNat) := by
    rw [hnodeRange]
    exact optMapM_pyGet_slice lines (i + 2) nz.toNat (by omega)
  have hdr2 : gmeshElementsHeader lines = some ((j : ℤ) + 1, ez) := by
    simp only [gmeshElementsHeader, hj]
    rw [show ((j : ℤ) + 1) = ((j + 1 : ℕ) : ℤ) by push_cast; ring,
      pyGet_natCast, hlj]
    simp only [Option.some_bind, hpj]
  have helemRange : pyRange ((j : ℤ) + 1 + 1) ((j : ℤ) + 1 + 1 + ez) =
      pyRange ((j + 2 : ℕ) : ℤ) (((j + 2 : ℕ) : ℤ) + ((ez.toNat : ℕ) : ℤ)) := by
    congr 1 <;> omega
  have helemLines : optMapM (pyGet lines)
      (pyRange ((j : ℤ) + 1 + 1) ((j : ℤ) + 1 + 1 + ez)) =
      some ((lines.drop (j + 2)).take ez.toNat) := by
    rw [helemRange]
    exact optMapM_pyGet_slice lines (j + 2) ez.toNat (by omega)
  have helsImpl : optMapM gmeshElemLine ((lines.drop (j + 2)).take ez.toNat) =
      some els := by
    rw [optMapM_eq_some_iff]
    exact ((optMapM_eq_some_iff _ _ _).mp hels).imp
      (fun _ _ hx => gmeshElemLineSpec_imp hx)
  unfold loadGmeshParse
  rw [hdr]
  simp only [Option.some_bind]
  rw [hnodeLines]
  simp only [Option.some_bind]
  rw [hcoords]
  simp only [Option.some_bind]
  rw [hdr2]
  simp only [Option.some_bind]
  rw [helemLines]
  simp only [Option.some_bind]
  rw [helsImpl]
  simp only [Option.some_bind]
  exact hr

theorem claim_C4_witness :
    loadGmeshParse ["x".toList, "$Nodes".toList, "2".toList,
      "1 0 0 0".toList, "2 1.5 2 3".toList, "$EndNodes".toList,
      "$Elements".toList, "1".toList, "7 2 0 0 1 2 2".toList] =
    some ([(0, 0, 0), (3/2, 2, 3)], [(0, 1, 1)]) :=
  claim_C4_loadGmesh_follows_spec (by with_unfolding_all decide)

/-! ## Claim C3: Dolfin-XML round trip -/

theorem parseVertexElem_roundtrip (i : ℕ) (x y z : ℚ)
    (hx : pyFloat (pyStrFloat x) = some x)
    (hy : pyFloat (pyStrFloat y) = some y)
    (hz : pyFloat (pyStrFloat z) = some z) :
    parseVertexElem (vertexElem i (x, y, z)) = some (x, y, z) := by
  have hax : getAttr (vertexElem i (x, y, z)).attrs "x".toList =
      some (pyStrFloat x) := rfl
  have hay : getAttr (vertexElem i (x, y, z)).attrs "y".toList =
      some (pyStrFloat y) := rfl
  have haz : getAttr (vertexElem i (x, y, z)).attrs "z".toList =
      some (pyStrFloat z) := rfl
  simp only [parseVertexElem, hax, hay, haz, Option.some_bind, hx, hy, hz]

theorem parseTetElem_roundtrip (i : ℕ) (a b c d : ℤ)
    (ha : pyInt (intChars a) = some a) (hb : pyInt (intChars b) = some b)
    (hc : pyInt (intChars c) = some c) (hd : pyInt (intChars d) = some d) :
    parseTetElem (tetElem i (a, b, c, d)) = some (a, b, c, d) := by
  have h0 : getAttr (tetElem i (a, b, c, d)).attrs "v0".toList =
      some (intChars a) := rfl
  have h1 : getAttr (tetElem i (a, b, c, d)).attrs "v1".toList =
      some (intChars b) := rfl
  have h2 : getAttr (tetElem i (a, b, c, d)).attrs "v2".toList =
      some (intChars c) := rfl
  have h3 : getAttr (tetElem i (a, b, c, d)).attrs "v3".toList =
      some (intChars d) := rfl
  simp only [parseTetElem, h0, h1, h2, h3, Option.some_bind, ha, hb, hc, hd]

theorem optMapM_vertexElems :
    ∀ cs : List Coord,
      (∀ c ∈ cs, pyFloat (pyStrFloat c.1) = some c.1 ∧
        pyFloat (pyStrFloat c.2.1) = some c.2.1 ∧
        pyFloat (pyStrFloat c.2.2) = some c.2.2) →
      ∀ n : ℕ, optMapM parseVertexElem (enumMap vertexElem n cs) = some cs := by
  intro cs
  induction cs with
  | nil => intro _ n; rfl
  | cons c rest ih =>
    intro hrt n
    obtain ⟨x, y, z⟩ := c
    obtain ⟨hx, hy, hz⟩ := hrt (x, y, z) (List.mem_cons_self _ _)
    simp only [enumMap, optMapM, parseVertexElem_roundtrip n x y z hx hy hz,
      ih (fun c hc => hrt c (List.mem_cons_of_mem _ hc)) (n + 1),
      Option.some_bind]

theorem optMapM_tetElems :
    ∀ ts : List Tet,
      (∀ t ∈ ts, pyInt (intChars t.1) = some t.1 ∧
        pyInt (intChars t.2.1) = some t.2.1 ∧
        pyInt (intChars t.2.2.1) = some t.2.2.1 ∧
        pyInt (intChars t.2.2.2) = some t.2.2.2) →
      ∀ n : ℕ, optMapM parseTetElem (enumMap tetElem n ts) = some ts := by
  intro ts
  induction ts with
  | nil => intro _ n; rfl
  | cons t rest ih =>
    intro hrt n
    obtain ⟨a, b, c, d⟩ := t
    obtain ⟨ha, hb, hc, hd⟩ := hrt (a, b, c, d) (List.mem_cons_self _ _)
    simp only [enumMap, optMapM, parseTetElem_roundtrip n a b c d ha hb hc hd,
      ih (fun t ht => hrt t (List.mem_cons_of_mem _ ht)) (n + 1),
      Option.some_bind]

theorem filter_vertexElems_vertex (cs : List Coord) :
    ∀ n, (enumMap vertexElem n cs).filter
        (fun c => c.tag == "vertex".toList) = enumMap vertexElem n cs := by
  induction cs with
  | nil => intro n; rfl
  | cons c rest ih =>
    intro n
    simp only [enumMap, List.filter]
    rw [show ((vertexElem n c).tag == "vertex".toList) = true from rfl, ih (n + 1)]

theorem filter_vertexElems_tet (cs : List Coord) :
    ∀ n, (enumMap vertexElem n cs).filter
        (fun c => c.tag == "tetrahedron".toList) = [] := by
  induction cs with
  | nil => intro n; rfl
  | cons c rest ih =>
    intro n
    simp only [enumMap, List.filter]
    rw [show ((vertexElem n c).tag == "tetrahedron".toList) = false from rfl,
      ih (n + 1)]

theorem filter_tetElems_vertex (ts : List Tet) :
    ∀ n, (enumMap tetElem n ts).filter
        (fun c => c.tag == "vertex".toList) = [] := by
  induction ts with
  | nil => intro n; rfl
  | cons t rest ih =>
    intro n
    simp only [enumMap, List.filter]
    rw [show ((tetElem n t).tag == "vertex".toList) = false from rfl, ih (n + 1)]

theorem filter_tetElems_tet (ts : List Tet) :
    ∀ n, (enumMap tetElem n ts).filter
        (fun c => c.tag == "tetrahedron".toList) = enumMap tetElem n ts := by
  induction ts with
  | nil => intro n; rfl
  | cons t rest ih =>
    intro n
    simp only [enumMap, List.filter]
    rw [show ((tetElem n t).tag == "tetrahedron".toList) = true from rfl,
      ih (n + 1)]

/-- C3: round trip.  For every coordinate list and connectivity list
produced by parsing a neutral-format file, writing them as Dolfin XML (the
`outfile` branch of `convertNeutral2Xml`, modelled as the element tree its
output parses to) and re-reading with the extraction loop of `loadXml`
yields the same coordinates and connectivity.  The two value-round-trip
hypotheses are the CPython guarantees `float(str(x)) == x` and
`int(str(n)) == n`, instantiated at the finitely many values of this file. -/
theorem claim_C3_xml_roundtrip {lines : List Line} {cs : List Coord}
    {ts : List Tet}
    (hp : convertNeutral2Xml lines = some (cs, ts))
    (hcv : ∀ c ∈ cs, pyFloat (pyStrFloat c.1) = some c.1 ∧
      pyFloat (pyStrFloat c.2.1) = some c.2.1 ∧
      pyFloat (pyStrFloat c.2.2) = some c.2.2)
    (hti : ∀ t ∈ ts, pyInt (intChars t.1) = some t.1 ∧
      pyInt (intChars t.2.1) = some t.2.1 ∧
      pyInt (intChars t.2.2.1) = some t.2.2.1 ∧
      pyInt (intChars t.2.2.2) = some t.2.2.2) :
    loadXmlExtract (writeDolfinXml cs ts) = some (cs, ts) := by
  simp only [loadXmlExtract, writeDolfinXml, findall, List.map_cons,
    List.map_nil, List.flatten_cons, List.flatten_nil, List.append_nil,
    optMapM]
  rw [filter_vertexElems_vertex cs 0, filter_tetElems_vertex ts 0,
    filter_vertexElems_tet cs 0, filter_tetElems_tet ts 0,
    optMapM_vertexElems cs hcv 0, optMapM_tetElems ts hti 0]
  simp only [optMapM, Option.some_bind, List.flatten_cons, List.flatten_nil,
    List.append_nil, List.nil_append]

theorem claim_C3_witness :
    convertNeutral2Xml ["2".toList, "0 0 0".toList, "1.5 2 3".toList,
        "1".toList, "7 1 2 2 1".toList] =
      some ([(0, 0, 0), (3/2, 2, 3)], [(0, 1, 1, 0)]) ∧
    loadXmlExtract (writeDolfinXml [(0, 0, 0), (3/2, 2, 3)] [(0, 1, 1, 0)]) =
      some ([(0, 0, 0), (3/2, 2, 3)], [(0, 1, 1, 0)]) :=
  ⟨by with_unfolding_all decide,
   @claim_C3_xml_roundtrip
     ["2".toList, "0 0 0".toList, "1.5 2 3".toList, "1".toList,
       "7 1 2 2 1".toList]
     [(0, 0, 0), (3/2, 2, 3)] [(0, 1, 1, 0)]
     (by with_unfolding_all decide)
     (by intro c hc
         fin_cases hc <;> refine ⟨?_, ?_, ?_⟩ <;> with_unfolding_all decide)
     (by intro t ht
         fin_cases ht <;> refine ⟨?_, ?_, ?_, ?_⟩ <;>
           with_unfolding_all decide)⟩

/-! ## Claim C5: `loadFile` dispatch -/

/-- C5: `loadFile` selects the loader purely by substring tests on the
lowercased filename, in source order: `.xml`/`.xml.gz` first, then
`.neutral`, `.gmsh`, `.pcd`, `.tif`/`.slc`, `.png`/`.jpg`/`.jpeg`, and
everything else falls through to `loadPoly`.  A matching substring anywhere
in the name decides (e.g. `a.xml.stl` goes to the XML loader), earlier
tests taking precedence. -/
theorem claim_C5_loadFile_dispatch (f : Line) :
    (selectLoader f = .xml ↔
      (hasSub ".xml".toList (f.map Char.toLower)
        || hasSub ".xml.gz".toList (f.map Char.toLower)) = true) ∧
    (selectLoader f = .neutral ↔
      (hasSub ".xml".toList (f.map Char.toLower)
        || hasSub ".xml.gz".toList (f.map Char.toLower)) = false ∧
      hasSub ".neutral".toList (f.map Char.toLower) = true) ∧
    (selectLoader f = .gmesh ↔
      (hasSub ".xml".toList (f.map Char.toLower)
        || hasSub ".xml.gz".toList (f.map Char.toLower)) = false ∧
      hasSub ".neutral".toList (f.map Char.toLower) = false ∧
      hasSub ".gmsh".toList (f.map Char.toLower) = true) ∧
    (selectLoader f = .pcd ↔
      (hasSub ".xml".toList (f.map Char.toLower)
        || hasSub ".xml.gz".toList (f.map Char.toLower)) = false ∧
      hasSub ".neutral".toList (f.map Char.toLower) = false ∧
      hasSub ".gmsh".toList (f.map Char.toLower) = false ∧
      hasSub ".pcd".toList (f.map Char.toLower) = true) ∧
    (selectLoader f = .volume ↔
      (hasSub ".xml".toList (f.map Char.toLower)
        || hasSub ".xml.gz".toList (f.map Char.toLower)) = false ∧
      hasSub ".neutral".toList (f.map Char.toLower) = false ∧
      hasSub ".gmsh".toList (f.map Char.toLower) = false ∧
      hasSub ".pcd".toList (f.map Char.toLower) = false ∧
      (hasSub ".tif".toList (f.map Char.toLower)
        || hasSub ".slc".toList (f.map Char.toLower)) = true) ∧
    (selectLoader f = .image2d ↔
      (hasSub ".xml".toList (f.map Char.toLower)
        || hasSub ".xml.gz".toList (f.map Char.toLower)) = false ∧
      hasSub ".neutral".toList (f.map Char.toLower) = false ∧
      hasSub ".gmsh".toList (f.map Char.toLower) = false ∧
      hasSub ".pcd".toList (f.map Char.toLower) = false ∧
      (hasSub ".tif".toList (f.map Char.toLower)
        || hasSub ".slc".toList (f.map Char.toLower)) = false ∧
      (hasSub ".png".toList (f.map Char.toLower)
        || hasSub ".jpg".toList (f.map Char.toLower)
        || hasSub ".jpeg".toList (f.map Char.toLower)) = true) ∧
    (selectLoader f = .poly ↔
      (hasSub ".xml".toList (f.map Char.toLower)
        || hasSub ".xml.gz".toList (f.map Char.toLower)) = false ∧
      hasSub ".neutral".toList (f.map Char.toLower) = false ∧
      hasSub ".gmsh".toList (f.map Char.toLower) = false ∧
      hasSub ".pcd".toList (f.map Char.toLower) = false ∧
      (hasSub ".tif".toList (f.map Char.toLower)
        || hasSub ".slc".toList (f.map Char.toLower)) = false ∧
      (hasSub ".png".toList (f.map Char.toLower)
        || hasSub ".jpg".toList (f.map Char.toLower)
        || hasSub ".jpeg".toList (f.map Char.toLower)) = false) ∧
    selectLoader "a.xml.stl".toList = .xml := by
  refine ⟨?_, ?_, ?_, ?_, ?_, ?_, ?_, by decide⟩ <;>
  · unfold selectLoader
    rcases h1 : (hasSub ".xml".toList (f.map Char.toLower)
      || hasSub ".xml.gz".toList (f.map Char.toLower)) <;>
    rcases h2 : hasSub ".neutral".toList (f.map Char.toLower) <;>
    rcases h3 : hasSub ".gmsh".toList (f.map Char.toLower) <;>
    rcases h4 : hasSub ".pcd".toList (f.map Char.toLower) <;>
    rcases h5 : (hasSub ".tif".toList (f.map Char.toLower)
      || hasSub ".slc".toList (f.map Char.toLower)) <;>
    rcases h6 : (hasSub ".png".toList (f.map Char.toLower)
      || hasSub ".jpg".toList (f.map Char.toLower)
      || hasSub ".jpeg".toList (f.map Char.toLower)) <;>
    (simp only [h1, h2, h3, h4, h5, h6]; simp)

/-! ## Claim C6: `loadDir` discards everything it loads -/

theorem foldl_const {a b : Type} (l : List a) (acc : List b) :
    l.foldl (fun acts _ => acts) acc = acc := by
  induction l generalizing acc with
  | nil => rfl
  | cons x xs ih => exact ih acc

/-- C6: for every directory that exists, `loadDir` returns the empty list:
its loop calls `loadFile` on each sorted entry but never appends to the
accumulator `acts` it returns. -/
theorem claim_C6_loadDir_empty (mydir : Line) (entries : List Line) :
    (loadDirRun true mydir entries).1.outcome = .ok ∧
    (loadDirRun true mydir entries).2 = [] := by
  refine ⟨rfl, ?_⟩
  show loadDirAcc entries = []
  exact foldl_const entries []

/-! ## Claim C7: missing paths and unsupported formats -/

/-- C7: on a nonexistent path each of `loadPoly`, `loadXml`, `loadNeutral`,
`loadGmesh`, `loadPCD`, `loadVolume` prints an error message and returns
the failure sentinel `None` (no exception: the model's `pyNone` outcome);
`loadDir` on a nonexistent directory terminates the process with
`exit(0)`, and `write` on a filename matching no supported output format
terminates it with `exit(1)`. -/
theorem claim_C7_error_handling :
    (∀ fn : Line,
      (loadPolyRun false fn).outcome = .pyNone ∧
        (loadPolyRun false fn).printed ≠ [] ∧
      (loadXmlRun false fn).outcome = .pyNone ∧
        (loadXmlRun false fn).printed ≠ [] ∧
      (loadNeutralRun false fn).outcome = .pyNone ∧
        (loadNeutralRun false fn).printed ≠ [] ∧
      (loadGmeshRun false fn).outcome = .pyNone ∧
        (loadGmeshRun false fn).printed ≠ [] ∧
      (loadPCDRun false fn).outcome = .pyNone ∧
        (loadPCDRun false fn).printed ≠ [] ∧
      (loadVolumeRun false fn).outcome = .pyNone ∧
        (loadVolumeRun false fn).printed ≠ []) ∧
    (∀ (mydir : Line) (entries : List Line),
      (loadDirRun false mydir entries).1.outcome = .procExit 0 ∧
        (loadDirRun false mydir entries).1.printed ≠ []) ∧
    (∀ fo : Line, writeSupported (fo.map Char.toLower) = false →
      (writeRun fo).outcome = .procExit 1 ∧ (writeRun fo).printed ≠ []) := by
  refine ⟨?_, ?_, ?_⟩
  · intro fn
    exact ⟨rfl, by simp [loadPolyRun], rfl, by simp [loadXmlRun],
      rfl, by simp [loadNeutralRun], rfl, by simp [loadGmeshRun],
      rfl, by simp [loadPCDRun], rfl, by simp [loadVolumeRun]⟩
  · intro mydir entries
    exact ⟨rfl, by simp [loadDirRun]⟩
  · intro fo h
    refine ⟨?_, ?_⟩ <;> simp [writeRun, h]

theorem claim_C7_witness :
    writeSupported ("out.doc".toList.map Char.toLower) = false ∧
    (writeRun "out.doc".toList).outcome = .procExit 1 :=
  ⟨by decide, (claim_C7_error_handling.2.2 "out.doc".toList (by decide)).1⟩

/-! ## Claim C9: `Video.close` -/

/-- C9: `Video.close` computes `_fps` only when `self.duration` is truthy;
for a video constructed with `duration=None` the `else` branch reads the
unassigned local `_fps`, so `close` fails with an unbound-local error
before invoking the encoder, and `close` completes normally only when
`duration` is not `None`. -/
theorem claim_C9_video_close (n : ℕ) :
    videoClose none n = .unboundLocalError ∧
    (∀ (d : Option ℚ) (m : ℕ) (fps : ℚ),
      videoClose d m = .encoded fps → d ≠ none) := by
  refine ⟨rfl, ?_⟩
  intro d m fps h hd
  subst hd
  exact CloseOutcome.noConfusion h

theorem claim_C9_witness :
    videoClose none 5 = .unboundLocalError ∧ ((some 2 : Option ℚ) ≠ none) :=
  ⟨(claim_C9_video_close 5).1,
   (claim_C9_video_close 5).2 (some 2) 6 3 (by with_unfolding_all decide)⟩

/-! ## Claim C10: the `ProgressBar` invariant -/

/-- C10 as stated is false at construction: `__init__` runs `_update(0)`
but then assigns `self._counts = 0` (line 503), so with `start = 5`,
`stop = 10` the freshly constructed bar has `_counts = 0 ∉ [5, 10]`. -/
theorem claim_C10_counterexample :
    (5 : ℤ) < 10 ∧ (pbInit 5 10 1).counts = 0 ∧ ¬ pbInv (pbInit 5 10 1) := by
  refine ⟨by decide, by with_unfolding_all decide, ?_⟩
  simp only [pbInv]
  with_unfolding_all decide

theorem pbUpdate_inv (pb : PBar) (hp : pb.start < pb.stop) (n : ℤ) :
    pbInv (pbUpdate pb n) := by
  have hc1 : pb.start ≤ pbClamp pb n := by
    unfold pbClamp
    split_ifs <;> omega
  have hc2 : pbClamp pb n ≤ pb.stop := by
    unfold pbClamp
    split_ifs <;> omega
  have hden : (0 : ℚ) < ((pb.stop - pb.start : ℤ) : ℚ) := by
    exact_mod_cast (show (0 : ℤ) < pb.stop - pb.start by omega)
  have hq0 : (0 : ℚ) ≤ (((pbClamp pb n - pb.start) * 100 : ℤ) : ℚ) /
      ((pb.stop - pb.start : ℤ) : ℚ) := by
    apply div_nonneg _ (le_of_lt hden)
    exact_mod_cast (show (0 : ℤ) ≤ (pbClamp pb n - pb.start) * 100 by
      have : 0 ≤ pbClamp pb n - pb.start := by omega
      positivity)
  have hq100 : (((pbClamp pb n - pb.start) * 100 : ℤ) : ℚ) /
      ((pb.stop - pb.start : ℤ) : ℚ) ≤ ((100 : ℤ) : ℚ) := by
    rw [div_le_iff hden]
    exact_mod_cast (show ((pbClamp pb n - pb.start) * 100 : ℤ) ≤
      100 * (pb.stop - pb.start) by nlinarith)
  have e1 : (pbUpdate pb n).counts = pbClamp pb n := rfl
  have e2 : (pbUpdate pb n).percent =
      pyRound ((((pbClamp pb n - pb.start) * 100 : ℤ) : ℚ) /
        ((pb.stop - pb.start : ℤ) : ℚ)) := rfl
  have e3 : (pbUpdate pb n).start = pb.start := rfl
  have e4 : (pbUpdate pb n).stop = pb.stop := rfl
  unfold pbInv
  rw [e1, e2, e3, e4]
  exact ⟨hc1, hc2, pyRound_nonneg hq0, pyRound_le hq100⟩

theorem pbPrint_inv (pb : PBar) (hp : pb.start < pb.stop) (c : Option ℤ) :
    pbInv (pbPrint pb c) := by
  cases c with
  | none => exact pbUpdate_inv pb hp _
  | some v =>
    show pbInv (if (v == 0) = true then pbUpdate pb (pb.counts + pb.step)
      else pbUpdate pb v)
    split_ifs <;> exact pbUpdate_inv pb hp _

/-- C10 amended: when `stop > start`, the invariant (`_counts ∈
[start, stop]` and `percent ∈ [0, 100]`) does hold after every call to
`print` or `_update` with any integer argument; but after construction
only the `percent` half holds unconditionally, because `__init__`
overwrites `_counts` with `0`, which lies in `[start, stop]` exactly when
`start ≤ 0 ≤ stop`. -/
theorem claim_C10_amended (pb : PBar) (hp : pb.start < pb.stop) (n : ℤ)
    (c : Option ℤ) (a b st : ℤ) (hab : a < b) :
    pbInv (pbUpdate pb n) ∧ pbInv (pbPrint pb c) ∧
    (pbInit a b st).counts = 0 ∧
    (0 ≤ (pbInit a b st).percent ∧ (pbInit a b st).percent ≤ 100) ∧
    (pbInv (pbInit a b st) ↔ (a ≤ 0 ∧ 0 ≤ b)) := by
  have hbase : pbInv (pbUpdate (⟨a, b, st, 25, [], 0, 0⟩ : PBar) 0) :=
    pbUpdate_inv _ (by exact hab) 0
  have hpct : (pbInit a b st).percent =
      (pbUpdate (⟨a, b, st, 25, [], 0, 0⟩ : PBar) 0).percent := rfl
  have hstart : (pbInit a b st).start = a := rfl
  have hstop : (pbInit a b st).stop = b := rfl
  have hcounts : (pbInit a b st).counts = 0 := rfl
  refine ⟨pbUpdate_inv pb hp n, pbPrint_inv pb hp c, hcounts, ?_, ?_⟩
  · rw [hpct]
    exact ⟨hbase.2.2.1, hbase.2.2.2⟩
  · unfold pbInv
    rw [hstart, hstop, hcounts, hpct]
    constructor
    · intro h
      exact ⟨h.1, h.2.1⟩
    · intro h
      exact ⟨h.1, h.2, hbase.2.2.1, hbase.2.2.2⟩

theorem claim_C10_amended_witness :
    pbInv (pbUpdate (pbInit 0 400 1) 500) ∧ pbInv (pbInit 0 400 1) := by
  have h := claim_C10_amended (pbInit 0 400 1)
    (by with_unfolding_all decide) 500 none 0 400 1 (by decide)
  exact ⟨h.1, h.2.2.2.2.mpr ⟨le_refl 0, by decide⟩⟩
